import Mathlib

/-!
Verification of the NEMS fitting-loop excerpt: the cost functions in
`nems/analysis/cost_functions.py` and `nems/analysis/fit_basic.py`, and the
`fit_basic` driver. Model specifications, the parameter mapper, the prefix
cache bookkeeping and the driver are embedded as pure Lean functions;
cross-call mutable attributes of the Python cost functions (`counter`,
`error`, `stack`) become an explicit state record threaded through the calls,
and the order of collaborator invocations is recorded in an event trace.
Numeric parameter values are modelled as rationals.
-/

namespace NEMS

/-- Parameter group of one module: ordered association list from parameter
name to a list of numeric values (one Python ndarray, flattened). -/
abbrev Phi := List (String × List ℚ)

/-- One module of a model specification: an identifier `fn`, an optional
parameter group `phi`, and an optional prior, represented here by the prior's
mean values (the only aspect of a prior this excerpt uses). -/
structure Module where
  fn : String
  phi : Option Phi
  prior : Option Phi
  deriving DecidableEq, Repr

/-- A model specification: the ordered module list plus the spec-level
fitting-mode marker and the metadata slots that `fit_basic` writes. -/
structure ModelSpec where
  modules : List Module
  fitMode : Bool
  metaFitter : Option String
  metaFitTime : Option Int
  metaNParms : Option Nat
  deriving DecidableEq, Repr

/-- Cross-call mutable state of a Python cost function: the `counter`,
`error` and `stack` attributes, each `none` when the attribute is unset
(`hasattr` false). `S` is the type of the cached evaluation stack. -/
structure CostState (S : Type) where
  counter : Option Int
  lastError : Option ℚ
  stack : Option S
  deriving DecidableEq, Repr

/-- Events recording, in order, the collaborator calls a cost function makes:
unpacking, segmenting, prefix determination (with the matched index),
evaluation (with the resume index passed), cache update, scoring and the
periodic progress emission. -/
inductive CostEvent where
  | unpackEv : CostEvent
  | segmentEv : CostEvent
  | matchEv : Int → CostEvent
  | evalEv : Option Int → CostEvent
  | cacheEv : CostEvent
  | scoreEv : CostEvent
  | progressEv : Int → ℚ → CostEvent
  deriving DecidableEq, Repr

/-- Result of one cost-function call: the returned error, the new attribute
state, and the trace of collaborator calls made. -/
structure CostResult (S : Type) where
  value : ℚ
  state : CostState S
  trace : List CostEvent
  deriving DecidableEq, Repr

/-- Values of one parameter group in stored order (`nems.fitters.mappers`).
Modelled from the spec: the simple-vector mapper flattens phi values in
module order then parameter-name order; the mapper module is not in src/. -/
def packPhi (p : Phi) : List ℚ :=
  (p.map (fun nv => nv.2)).flatten

/-- Modelled from the spec: `pack(spec)` flattens all phi values of all
modules into one ordered numeric vector (module order, then parameter-name
order); `nems.fitters.mappers.simple_vector` is not in src/. A module without
phi contributes nothing. -/
def pack (s : ModelSpec) : List ℚ :=
  (s.modules.map (fun m => match m.phi with
    | some p => packPhi p
    | none => [])).flatten

/-- Helper for `unpack`: refill one parameter group from the front of the
vector, returning the rebuilt group and the remaining vector. -/
def unpackPhi : Phi → List ℚ → Phi × List ℚ
  | [], v => ([], v)
  | (n, vs) :: rest, v =>
      let r := unpackPhi rest (v.drop vs.length)
      ((n, v.take vs.length) :: r.1, r.2)

/-- Helper for `unpack`: refill the phi of each module in order from the
vector, preserving every non-numeric field. -/
def unpackModules : List Module → List ℚ → List Module × List ℚ
  | [], v => ([], v)
  | m :: rest, v =>
      match m.phi with
      | none =>
          let r := unpackModules rest v
          (m :: r.1, r.2)
      | some p =>
          let rp := unpackPhi p v
          let r := unpackModules rest rp.2
          ({ m with phi := some rp.1 } :: r.1, r.2)

/-- Modelled from the spec: `unpack(vector)` rebuilds a specification from
the template the mapper was built over, leaf parameter values taken from the
vector in order and non-numeric fields preserved unchanged
(`nems.fitters.mappers.simple_vector` is not in src/). -/
def unpack (tmpl : ModelSpec) (v : List ℚ) : ModelSpec :=
  { tmpl with modules := (unpackModules tmpl.modules v).1 }

/-- Modelled from the spec: `nems.fitters.mappers.simple_vector(modelspec)`
returns the pack/unpack closure pair over the given specification. -/
def simple_vector (tmpl : ModelSpec) : (ModelSpec → List ℚ) × (List ℚ → ModelSpec) :=
  (pack, unpack tmpl)

/-- Total number of scalar parameters a phi group holds. -/
def phiSize (p : Phi) : Nat :=
  (p.map (fun nv => nv.2.length)).sum

/-- Total number of scalar parameters a specification holds; a function only
of the specification's shape (names and value counts), not of the values. -/
def specSize (s : ModelSpec) : Nat :=
  (s.modules.map (fun m => match m.phi with
    | some p => phiSize p
    | none => 0)).sum

theorem packPhi_length (p : Phi) : (packPhi p).length = phiSize p := by
  induction p with
  | nil => rfl
  | cons nv rest ih =>
      simp [packPhi, phiSize] at ih ⊢
      omega

theorem pack_length (s : ModelSpec) : (pack s).length = specSize s := by
  unfold pack specSize
  induction s.modules with
  | nil => rfl
  | cons m rest ih =>
      simp only [List.map_cons, List.flatten_cons, List.length_append, List.sum_cons] at ih ⊢
      cases h : m.phi with
      | none => simpa [h] using ih
      | some p => simp [h, packPhi_length, ih]

theorem unpackPhi_pack (p : Phi) (rest : List ℚ) :
    unpackPhi p (packPhi p ++ rest) = (p, rest) := by
  induction p with
  | nil => rfl
  | cons nv tail ih =>
      obtain ⟨n, vs⟩ := nv
      simp [unpackPhi, packPhi] at ih ⊢
      constructor
      · rw [ih]
      · rw [ih]

theorem unpackModules_pack (ms : List Module) (rest : List ℚ) :
    unpackModules ms
      (((ms.map (fun m => match m.phi with
          | some p => packPhi p
          | none => [])).flatten) ++ rest) = (ms, rest) := by
  induction ms with
  | nil => rfl
  | cons m tail ih =>
      cases h : m.phi with
      | none =>
          simp [unpackModules, h, ih]
      | some p =>
          simp only [List.map_cons, List.flatten_cons, h, unpackModules, List.append_assoc]
          rw [unpackPhi_pack p _]
          simp [ih, ← h]

theorem unpack_pack (s : ModelSpec) : unpack s (pack s) = s := by
  have h := unpackModules_pack s.modules []
  simp only [List.append_nil] at h
  simp [unpack, pack, h]

theorem unpackModules_fn_prior (ms : List Module) (v : List ℚ) :
    ((unpackModules ms v).1.map Module.fn = ms.map Module.fn) ∧
    ((unpackModules ms v).1.map Module.prior = ms.map Module.prior) := by
  induction ms generalizing v with
  | nil => exact ⟨rfl, rfl⟩
  | cons m tail ih =>
      cases h : m.phi with
      | none => simp [unpackModules, h, (ih v).1, (ih v).2]
      | some p =>
          simp [unpackModules, h, (ih (unpackPhi p v).2).1, (ih (unpackPhi p v).2).2]

/-- Count of leading positions at which two module lists hold identical
parameter values (phi compared for exact equality). -/
def matchingLen : List Module → List Module → Nat
  | m1 :: r1, m2 :: r2 => if m1.phi = m2.phi then matchingLen r1 r2 + 1 else 0
  | _, _ => 0

/-- Modelled from the spec: `nems.fitters.util.last_matching_phi(a, b)` (not
in src/) compares the two specifications' modules position-by-position on
parameter values and returns the index of the last leading module whose
parameter values are identical, `-1` when already the first modules differ. -/
def last_matching_phi (a b : ModelSpec) : Int :=
  (matchingLen a.modules b.modules : Int) - 1

theorem matchingLen_le (a b : List Module) :
    matchingLen a b ≤ a.length ∧ matchingLen a b ≤ b.length := by
  induction a generalizing b with
  | nil => cases b <;> simp [matchingLen]
  | cons m1 r1 ih =>
      cases b with
      | nil => simp [matchingLen]
      | cons m2 r2 =>
          by_cases h : m1.phi = m2.phi
          · simpa [matchingLen, h, Nat.succ_le_succ_iff] using ih r2
          · simp [matchingLen, h]

theorem matchingLen_spec (a b : List Module) :
    (∀ k, k < matchingLen a b →
        (a.get? k).map Module.phi = (b.get? k).map Module.phi) ∧
    (matchingLen a b < a.length → matchingLen a b < b.length →
        (a.get? (matchingLen a b)).map Module.phi ≠
          (b.get? (matchingLen a b)).map Module.phi) := by
  induction a generalizing b with
  | nil => cases b <;> simp [matchingLen]
  | cons m1 r1 ih =>
      cases b with
      | nil => simp [matchingLen]
      | cons m2 r2 =>
          by_cases h : m1.phi = m2.phi
          · constructor
            · intro k hk
              cases k with
              | zero => simp [h]
              | succ k =>
                  simp only [matchingLen, h, if_true] at hk
                  exact (ih r2).1 k (by omega)
            · intro ha hb
              simp only [matchingLen, h, if_true] at ha hb ⊢
              simpa using (ih r2).2 (by simpa using ha) (by simpa using hb)
          · constructor
            · intro k hk
              simp [matchingLen, h] at hk
            · intro _ _
              simp [matchingLen, h]

namespace CostFunctions

/-- Embedding of `basic_cost` from `nems/analysis/cost_functions.py`. The
Python function attributes `counter`, `error` and `stack` are threaded
explicitly as `st`; the pluggable collaborators (`segmentor`, `evaluator`,
`metric`) and the helpers from `nems.fitters.util` that are not in src/
(`copy_stack_data`, and the extraction of the stack from the evaluated data,
`getStack`) are parameters. The trace records the collaborator calls in the
order the source makes them. -/
def basic_cost {D S : Type} (sigma : List ℚ) (unpacker : List ℚ → ModelSpec)
    (modelspec : ModelSpec) (data : D) (segmentor : D → D)
    (evaluator : D → ModelSpec → Option Int → Bool → D) (metric : D → ℚ)
    (keep_stack : Bool) (getStack : D → S)
    (copy_stack_data : D → S → Int → ModelSpec → D)
    (st : CostState S) : CostResult S :=
  let updated_spec := unpacker sigma
  let data_subset := segmentor data
  let pre : D × Option Int × List CostEvent :=
    match keep_stack, st.stack with
    | true, some stk =>
        let idx := last_matching_phi modelspec updated_spec
        (copy_stack_data data_subset stk idx modelspec, some (idx + 1),
          [CostEvent.matchEv idx])
    | _, _ => (data_subset, none, [])
  let updated_data_subset := evaluator pre.1 updated_spec pre.2.1 keep_stack
  let cacheStep : Option S × List CostEvent :=
    if keep_stack then (some (getStack updated_data_subset), [CostEvent.cacheEv])
    else (st.stack, [])
  let error := metric updated_data_subset
  let counterStep : Option Int × List CostEvent :=
    match st.counter with
    | some c =>
        if (c + 1) % 500 = 0 then (some (c + 1), [CostEvent.progressEv (c + 1) error])
        else (some (c + 1), [])
    | none => (none, [])
  let lastError := st.lastError.map (fun _ => error)
  { value := error
    state := { counter := counterStep.1, lastError := lastError, stack := cacheStep.1 }
    trace := [CostEvent.unpackEv, CostEvent.segmentEv] ++ pre.2.2 ++
      [CostEvent.evalEv pre.2.1] ++ cacheStep.2 ++ [CostEvent.scoreEv] ++ counterStep.2 }

end CostFunctions

namespace FitBasic

/-- Embedding of `basic_cost` from `nems/analysis/fit_basic.py`: as the
`cost_functions.py` variant but with no stack handling, a progress cadence of
1000 calls, and the evaluator invoked with the defaults of
`nems.modelspec.evaluate` (start absent, no stack keeping; the defaults are
modelled from the spec since `nems.modelspec` is not in src/). -/
def basic_cost {D S : Type} (sigma : List ℚ) (unpacker : List ℚ → ModelSpec)
    (_modelspec : ModelSpec) (data : D) (segmentor : D → D)
    (evaluator : D → ModelSpec → Option Int → Bool → D) (metric : D → ℚ)
    (st : CostState S) : CostResult S :=
  let updated_spec := unpacker sigma
  let data_subset := segmentor data
  let updated_data_subset := evaluator data_subset updated_spec none false
  let error := metric updated_data_subset
  let counterStep : Option Int × List CostEvent :=
    match st.counter with
    | some c =>
        if (c + 1) % 1000 = 0 then (some (c + 1), [CostEvent.progressEv (c + 1) error])
        else (some (c + 1), [])
    | none => (none, [])
  let lastError := st.lastError.map (fun _ => error)
  { value := error
    state := { counter := counterStep.1, lastError := lastError, stack := st.stack }
    trace := [CostEvent.unpackEv, CostEvent.segmentEv, CostEvent.evalEv none,
      CostEvent.scoreEv] ++ counterStep.2 }

/-- Shape of a cost function as `fit_basic` consumes it: sigma, the frozen
keyword arguments, then the attribute state. -/
def CostFunT (D S : Type) : Type :=
  List ℚ → (List ℚ → ModelSpec) → ModelSpec → D → (D → D) →
    (D → ModelSpec → Option Int → Bool → D) → (D → ℚ) → CostState S → CostResult S

/-- Modelled from the spec: `nems.priors.set_mean_phi` (not in src/) gives a
module the mean of its prior as phi and fails when no prior is defined;
priors are represented here directly by their mean values. -/
def set_mean_phi (m : Module) : Except String Module :=
  match m.prior with
  | some p => Except.ok { m with phi := some p }
  | none => Except.error ("no prior defined for module " ++ m.fn)

/-- The `require_phi` loop of `fit_basic`: modules that already have phi are
kept; modules without phi get the mean of their prior via `set_mean_phi`,
and the whole fit fails when a module has neither. -/
def initAllPhi : List Module → Except String (List Module)
  | [] => Except.ok []
  | m :: rest =>
      match m.phi with
      | some _ => (initAllPhi rest).map (fun r => m :: r)
      | none =>
          match set_mean_phi m with
          | Except.ok m' => (initAllPhi rest).map (fun r => m' :: r)
          | Except.error e => Except.error e

/-- Modelled from the spec: `nems.modelspec.fit_mode_on` (not in src/) marks
the specification as being in fitting mode, in place. -/
def fit_mode_on (s : ModelSpec) : ModelSpec := { s with fitMode := true }

/-- Modelled from the spec: `nems.modelspec.fit_mode_off` (not in src/)
clears the fitting-mode marker. -/
def fit_mode_off (s : ModelSpec) : ModelSpec := { s with fitMode := false }

/-- The closure `fit_basic` hands the fitter: everything but sigma frozen
(`functools.partial`), adapted to thread the attribute state explicitly. -/
def cost_closure {D S : Type} (cost_function : CostFunT D S)
    (unpacker : List ℚ → ModelSpec) (modelspec : ModelSpec) (data : D)
    (segmentor : D → D) (evaluator : D → ModelSpec → Option Int → Bool → D)
    (metric : D → ℚ) : List ℚ → CostState S → ℚ × CostState S :=
  fun sigma cst =>
    let r := cost_function sigma unpacker modelspec data segmentor evaluator metric cst
    (r.value, r.state)

/-- Embedding of `fit_basic` from `nems/analysis/fit_basic.py`. The external
minimizer is the `fitter` parameter, threaded through the cost-function
attribute state; `t0` and `t1` are the two wall-clock readings
(`time.time()` at entry and after the fit). Python mutates the caller's
modelspec in place (`modelspec[i] = m` in the require_phi loop, and
`ms.fit_mode_on(modelspec)`); the value the caller's variable holds when the
call returns is the second component of the successful result, and
`set_modelspec_metadata` (not in src/) is modelled as the three metadata
fields of `ModelSpec`. -/
def fit_basic {D S : Type} (data : D) (modelspec : ModelSpec)
    (fitter : List ℚ → (List ℚ → CostState S → ℚ × CostState S) → CostState S → List ℚ × CostState S)
    (cost_function : CostFunT D S)
    (segmentor : D → D)
    (mapper : ModelSpec → (ModelSpec → List ℚ) × (List ℚ → ModelSpec))
    (evaluator : D → ModelSpec → Option Int → Bool → D)
    (metric : D → ℚ)
    (metaname : String) (require_phi : Bool) (t0 t1 : Int)
    (st : CostState S) :
    Except String (List ModelSpec × ModelSpec × CostState S) :=
  match (if require_phi then initAllPhi modelspec.modules
         else Except.ok modelspec.modules) with
  | Except.error e => Except.error e
  | Except.ok mods =>
      let mspec := fit_mode_on { modelspec with modules := mods }
      let pu := mapper mspec
      let st0 : CostState S := { st with counter := some 0 }
      let cost_fn := cost_closure cost_function pu.2 mspec data segmentor evaluator metric
      let sigma := pu.1 mspec
      let fr := fitter sigma cost_fn st0
      let improved_sigma := fr.1
      let improved_modelspec := pu.2 improved_sigma
      let elapsed_time := t1 - t0
      let im1 := fit_mode_off improved_modelspec
      let im2 := { im1 with metaFitter := some metaname,
                            metaFitTime := some elapsed_time,
                            metaNParms := some improved_sigma.length }
      Except.ok ([im2], mspec, fr.2)

end FitBasic

/-- Fitter that returns the start vector unchanged and leaves the attribute
state exactly as it received it; used to observe what `fit_basic` itself
does to the state around the minimizer call. -/
def idFitter {S : Type} :
    List ℚ → (List ℚ → CostState S → ℚ × CostState S) → CostState S →
      List ℚ × CostState S :=
  fun s _ cst => (s, cst)

/-- Sample module with two coefficients. -/
def mA : Module := { fn := "wc", phi := some [("coef", [1, 2])], prior := none }

/-- Sample module with one coefficient and a prior. -/
def mB : Module := { fn := "fir", phi := some [("coef", [3])], prior := some [("coef", [0])] }

/-- Sample module with no phi but a prior. -/
def mNoPhi : Module := { fn := "lvl", phi := none, prior := some [("level", [5])] }

/-- Sample module with neither phi nor a prior. -/
def mBare : Module := { fn := "dexp", phi := none, prior := none }

/-- Sample specification with fully initialized parameters. -/
def specA : ModelSpec :=
  { modules := [mA, mB], fitMode := false,
    metaFitter := none, metaFitTime := none, metaNParms := none }

/-- Sample specification with a module whose phi must be defaulted. -/
def specNoPhi : ModelSpec :=
  { modules := [mNoPhi], fitMode := false,
    metaFitter := none, metaFitTime := none, metaNParms := none }

/-- Sample specification containing a module with neither phi nor prior. -/
def specBare : ModelSpec :=
  { modules := [mA, mBare], fitMode := false,
    metaFitter := none, metaFitTime := none, metaNParms := none }

/-- The `lvl` module after phi defaulting: phi set to the prior's mean. -/
def mNoPhiInit : Module := { fn := "lvl", phi := some [("level", [5])], prior := some [("level", [5])] }

/-- The caller's specification as it stands after the C5 counterexample run:
phi defaulted in place and the fitting-mode marker left on. -/
def specNoPhiMutated : ModelSpec := { modules := [mNoPhiInit], fitMode := true, metaFitter := none, metaFitTime := none, metaNParms := none }

/-- Per-module phi defaulting rule the require-phi pass implements: keep an
existing phi, otherwise take the prior's mean (priors are represented by
their means). -/
def defaultPhi (mm : Module) : Module :=
  { mm with phi := match mm.phi with
      | some p => some p
      | none => mm.prior }

/-- C7: `unpack (pack spec)` reproduces the specification's parameter values
exactly; `unpack` preserves every non-numeric field (module identifiers,
priors, the spec-level marker and metadata) unchanged for any vector; and the
packed vector's length equals `specSize`, a function of the specification's
shape alone, so it is the same on every call for a fixed structure. -/
theorem C7_pack_unpack_roundtrip (s : ModelSpec) (v : List ℚ) :
    unpack s (pack s) = s ∧
    (unpack s v).modules.map Module.fn = s.modules.map Module.fn ∧
    (unpack s v).modules.map Module.prior = s.modules.map Module.prior ∧
    (unpack s v).fitMode = s.fitMode ∧
    (unpack s v).metaFitter = s.metaFitter ∧
    (unpack s v).metaFitTime = s.metaFitTime ∧
    (unpack s v).metaNParms = s.metaNParms ∧
    (pack s).length = specSize s :=
  ⟨unpack_pack s, (unpackModules_fn_prior s.modules v).1,
    (unpackModules_fn_prior s.modules v).2, rfl, rfl, rfl, rfl, pack_length s⟩

/-- C9: with `keep_stack = false` and the same inputs and attribute state,
the `cost_functions.py` variant of `basic_cost` returns the same error value
as the `fit_basic.py` variant, their different progress cadences (500 versus
1000 calls) notwithstanding. -/
theorem C9_variants_agree {D S : Type} (sigma : List ℚ)
    (unpacker : List ℚ → ModelSpec) (modelspec : ModelSpec) (data : D)
    (segmentor : D → D) (evaluator : D → ModelSpec → Option Int → Bool → D)
    (metric : D → ℚ) (getStack : D → S)
    (copy_stack_data : D → S → Int → ModelSpec → D) (st : CostState S) :
    (CostFunctions.basic_cost sigma unpacker modelspec data segmentor evaluator
        metric false getStack copy_stack_data st).value =
      (FitBasic.basic_cost sigma unpacker modelspec data segmentor evaluator
        metric st).value := by
  cases h : st.stack <;>
    simp [CostFunctions.basic_cost, FitBasic.basic_cost, h]

/-- C10: called with none of the attributes set (fresh state: no counter, no
last error, no stack — as when `basic_cost` is used outside any `fit`), both
variants still compute and return the metric value, leave the counter and
last-error attributes unset, and emit no progress observation. -/
theorem C10_fresh_state_safe {D S : Type} (sigma : List ℚ)
    (unpacker : List ℚ → ModelSpec) (modelspec : ModelSpec) (data : D)
    (segmentor : D → D) (evaluator : D → ModelSpec → Option Int → Bool → D)
    (metric : D → ℚ) (keep_stack : Bool) (getStack : D → S)
    (copy_stack_data : D → S → Int → ModelSpec → D) :
    let fresh : CostState S := { counter := none, lastError := none, stack := none }
    let r := CostFunctions.basic_cost sigma unpacker modelspec data segmentor
      evaluator metric keep_stack getStack copy_stack_data fresh
    let r' := FitBasic.basic_cost sigma unpacker modelspec data segmentor
      evaluator metric fresh
    r.value = metric (evaluator (segmentor data) (unpacker sigma) none keep_stack) ∧
    r.state.counter = none ∧ r.state.lastError = none ∧
    (∀ n e, CostEvent.progressEv n e ∉ r.trace) ∧
    r'.value = metric (evaluator (segmentor data) (unpacker sigma) none false) ∧
    r'.state.counter = none ∧ r'.state.lastError = none ∧
    (∀ n e, CostEvent.progressEv n e ∉ r'.trace) := by
  cases keep_stack <;>
    simp [CostFunctions.basic_cost, FitBasic.basic_cost]

/-- C1: the value `basic_cost` returns is the metric applied to the
evaluated, segmented (and, on the cached branch, stack-merged) dataset under
the specification unpacked from sigma, and it does not depend on the counter
or last-error attribute state: the counter increment and the periodic
progress observation have no effect on the returned value. -/
theorem C1_cost_value {D S : Type} (sigma : List ℚ)
    (unpacker : List ℚ → ModelSpec) (modelspec : ModelSpec) (data : D)
    (segmentor : D → D) (evaluator : D → ModelSpec → Option Int → Bool → D)
    (metric : D → ℚ) (keep_stack : Bool) (getStack : D → S)
    (copy_stack_data : D → S → Int → ModelSpec → D)
    (st st' : CostState S) (h : st.stack = st'.stack) :
    (CostFunctions.basic_cost sigma unpacker modelspec data segmentor evaluator
        metric keep_stack getStack copy_stack_data st).value =
      metric (evaluator
        (match keep_stack, st.stack with
          | true, some stk => copy_stack_data (segmentor data) stk
              (last_matching_phi modelspec (unpacker sigma)) modelspec
          | _, _ => segmentor data)
        (unpacker sigma)
        (match keep_stack, st.stack with
          | true, some _ => some (last_matching_phi modelspec (unpacker sigma) + 1)
          | _, _ => none)
        keep_stack) ∧
    (CostFunctions.basic_cost sigma unpacker modelspec data segmentor evaluator
        metric keep_stack getStack copy_stack_data st).value =
      (CostFunctions.basic_cost sigma unpacker modelspec data segmentor evaluator
        metric keep_stack getStack copy_stack_data st').value := by
  cases keep_stack <;> cases hs : st.stack <;> cases hs' : st'.stack <;>
    rw [hs, hs'] at h <;> simp_all [CostFunctions.basic_cost]

/-- C1 witness: concrete cached call on which the two states differ in
counter and last error yet the returned value is the same metric value. -/
theorem C1_cost_value_witness :
    ((⟨some 1, some 0, some 2⟩ : CostState ℚ).stack =
        (⟨none, none, some 2⟩ : CostState ℚ).stack) ∧
    (CostFunctions.basic_cost [] (fun _ => specA) specA (1 : ℚ) id
        (fun d _ _ _ => d) id true id (fun d _ _ _ => d)
        ⟨some 1, some 0, some 2⟩).value =
      (CostFunctions.basic_cost [] (fun _ => specA) specA 1 id
        (fun d _ _ _ => d) id true id (fun d _ _ _ => d)
        ⟨none, none, some 2⟩).value :=
  ⟨rfl, (C1_cost_value [] (fun _ => specA) specA 1 id (fun d _ _ _ => d) id
    true id (fun d _ _ _ => d) ⟨some 1, some 0, some 2⟩ ⟨none, none, some 2⟩ rfl).2⟩

/-- C2: with caching enabled and a cache present, `basic_cost` calls the
evaluator with resume index `last_matching_phi + 1`, which is one past the
index of the last leading module whose parameter values are identical between
the closure's specification and the newly unpacked one: each position below
the matched count carries identical phi, and the first position past it
(when both specifications still have one) differs. -/
theorem C2_resume_index {D S : Type} (sigma : List ℚ)
    (unpacker : List ℚ → ModelSpec) (modelspec : ModelSpec) (data : D)
    (segmentor : D → D) (evaluator : D → ModelSpec → Option Int → Bool → D)
    (metric : D → ℚ) (getStack : D → S)
    (copy_stack_data : D → S → Int → ModelSpec → D)
    (stk : S) (st : CostState S) (h : st.stack = some stk) :
    CostEvent.evalEv (some (last_matching_phi modelspec (unpacker sigma) + 1)) ∈
      (CostFunctions.basic_cost sigma unpacker modelspec data segmentor evaluator
        metric true getStack copy_stack_data st).trace ∧
    last_matching_phi modelspec (unpacker sigma) + 1 =
      (matchingLen modelspec.modules (unpacker sigma).modules : Int) ∧
    (∀ k, k < matchingLen modelspec.modules (unpacker sigma).modules →
      (modelspec.modules.get? k).map Module.phi =
        ((unpacker sigma).modules.get? k).map Module.phi) ∧
    (matchingLen modelspec.modules (unpacker sigma).modules < modelspec.modules.length →
      matchingLen modelspec.modules (unpacker sigma).modules < (unpacker sigma).modules.length →
      (modelspec.modules.get? (matchingLen modelspec.modules (unpacker sigma).modules)).map Module.phi ≠
        ((unpacker sigma).modules.get? (matchingLen modelspec.modules (unpacker sigma).modules)).map Module.phi) := by
  refine ⟨?_, ?_, (matchingLen_spec _ _).1, (matchingLen_spec _ _).2⟩
  · simp [CostFunctions.basic_cost, h]
  · unfold last_matching_phi
    omega

/-- C2 witness: concrete cached call; both modules of the template match the
unpacked specification, so the evaluator receives resume index 2. -/
theorem C2_resume_index_witness :
    ((⟨some 0, none, some 2⟩ : CostState ℚ).stack = some 2) ∧
    CostEvent.evalEv (some (last_matching_phi specA specA + 1)) ∈
      (CostFunctions.basic_cost [] (fun _ => specA) specA (1 : ℚ) id
        (fun d _ _ _ => d) id true id (fun d _ _ _ => d)
        ⟨some 0, none, some 2⟩).trace :=
  ⟨rfl, (C2_resume_index [] (fun _ => specA) specA 1 id (fun d _ _ _ => d) id
    id (fun d _ _ _ => d) 2 ⟨some 0, none, some 2⟩ rfl).1⟩

/-- C3 counterexample: on a concrete cached call the trace shows the dataset
being segmented before the reusable prefix is determined, so the claimed
step order (prefix determination before segmentation) does not hold. -/
theorem C3_counterexample :
    (CostFunctions.basic_cost [] (fun _ => specA) specA (0 : ℚ) id
        (fun d _ _ _ => d) id true id (fun d _ _ _ => d)
        ⟨some 0, none, some 1⟩).trace =
      [CostEvent.unpackEv, CostEvent.segmentEv, CostEvent.matchEv 1,
        CostEvent.evalEv (some 2), CostEvent.cacheEv, CostEvent.scoreEv] ∧
    (CostFunctions.basic_cost [] (fun _ => specA) specA (0 : ℚ) id
        (fun d _ _ _ => d) id true id (fun d _ _ _ => d)
        ⟨some 0, none, some 1⟩).trace ≠
      [CostEvent.unpackEv, CostEvent.matchEv 1, CostEvent.segmentEv,
        CostEvent.evalEv (some 2), CostEvent.cacheEv, CostEvent.scoreEv] := by
  constructor
  · rfl
  · decide

/-- C3 amended: on every cached call the steps run in the source's order —
unpack, segment the dataset, determine the reusable prefix and resume index,
evaluate, update the cache, score — with only the periodic progress emission
possibly following the scoring. -/
theorem C3_step_order {D S : Type} (sigma : List ℚ)
    (unpacker : List ℚ → ModelSpec) (modelspec : ModelSpec) (data : D)
    (segmentor : D → D) (evaluator : D → ModelSpec → Option Int → Bool → D)
    (metric : D → ℚ) (getStack : D → S)
    (copy_stack_data : D → S → Int → ModelSpec → D)
    (stk : S) (st : CostState S) (h : st.stack = some stk) :
    (CostFunctions.basic_cost sigma unpacker modelspec data segmentor evaluator
        metric true getStack copy_stack_data st).trace.filter
      (fun e => match e with
        | CostEvent.progressEv _ _ => false
        | _ => true) =
      [CostEvent.unpackEv, CostEvent.segmentEv,
        CostEvent.matchEv (last_matching_phi modelspec (unpacker sigma)),
        CostEvent.evalEv (some (last_matching_phi modelspec (unpacker sigma) + 1)),
        CostEvent.cacheEv, CostEvent.scoreEv] := by
  cases hc : st.counter with
  | none => simp [CostFunctions.basic_cost, h, hc]
  | some c =>
      by_cases hm : (c + 1) % 500 = 0 <;>
        simp [CostFunctions.basic_cost, h, hc, hm]

/-- C3 amended witness: concrete cached call whose filtered trace is exactly
the six steps in source order. -/
theorem C3_step_order_witness :
    ((⟨some 0, none, some 1⟩ : CostState ℚ).stack = some 1) ∧
    (CostFunctions.basic_cost [] (fun _ => specA) specA (0 : ℚ) id
        (fun d _ _ _ => d) id true id (fun d _ _ _ => d)
        ⟨some 0, none, some 1⟩).trace.filter
      (fun e => match e with
        | CostEvent.progressEv _ _ => false
        | _ => true) =
      [CostEvent.unpackEv, CostEvent.segmentEv,
        CostEvent.matchEv (last_matching_phi specA specA),
        CostEvent.evalEv (some (last_matching_phi specA specA + 1)),
        CostEvent.cacheEv, CostEvent.scoreEv] :=
  ⟨rfl, C3_step_order [] (fun _ => specA) specA 0 id (fun d _ _ _ => d) id
    id (fun d _ _ _ => d) 1 ⟨some 0, none, some 1⟩ rfl⟩

theorem initAllPhi_ok_shape (ms mods : List Module)
    (h : FitBasic.initAllPhi ms = Except.ok mods) :
    mods = ms.map defaultPhi := by
  induction ms generalizing mods with
  | nil =>
      simp only [FitBasic.initAllPhi, Except.ok.injEq] at h
      subst h
      rfl
  | cons m rest ih =>
      cases hphi : m.phi with
      | some p =>
          simp only [FitBasic.initAllPhi, hphi] at h
          cases hr : FitBasic.initAllPhi rest with
          | error e => rw [hr] at h; simp [Except.map] at h
          | ok r =>
              rw [hr] at h
              simp only [Except.map, Except.ok.injEq] at h
              subst h
              have hd : defaultPhi m = m := by
                cases m
                simp_all [defaultPhi]
              simp [hd, ih r hr]
      | none =>
          cases hprior : m.prior with
          | some p =>
              simp only [FitBasic.initAllPhi, hphi, FitBasic.set_mean_phi, hprior] at h
              cases hr : FitBasic.initAllPhi rest with
              | error e => rw [hr] at h; simp [Except.map] at h
              | ok r =>
                  rw [hr] at h
                  simp only [Except.map, Except.ok.injEq] at h
                  subst h
                  have hd : defaultPhi m = { m with phi := some p } := by
                    simp [defaultPhi, hphi, hprior]
                  simp [hd, ih r hr, hprior]
          | none =>
              simp [FitBasic.initAllPhi, hphi, FitBasic.set_mean_phi, hprior] at h

theorem initAllPhi_error_of_bare (ms : List Module) (m : Module)
    (hm : m ∈ ms) (hphi : m.phi = none) (hprior : m.prior = none) :
    ∃ e, FitBasic.initAllPhi ms = Except.error e := by
  induction ms with
  | nil => cases hm
  | cons m0 rest ih =>
      cases hm with
      | head =>
          exact ⟨"no prior defined for module " ++ m.fn,
            by simp [FitBasic.initAllPhi, hphi, FitBasic.set_mean_phi, hprior]⟩
      | tail _ hmem =>
          obtain ⟨e, he⟩ := ih hmem
          cases hphi0 : m0.phi with
          | some p =>
              exact ⟨e, by simp [FitBasic.initAllPhi, hphi0, he, Except.map]⟩
          | none =>
              cases hpr0 : m0.prior with
              | some p =>
                  exact ⟨e, by simp [FitBasic.initAllPhi, hphi0,
                    FitBasic.set_mean_phi, hpr0, he, Except.map]⟩
              | none =>
                  exact ⟨"no prior defined for module " ++ m0.fn,
                    by simp [FitBasic.initAllPhi, hphi0,
                      FitBasic.set_mean_phi, hpr0]⟩

/-- C4 counterexample: a concrete `fit_basic` call (state-preserving fitter)
entered with a set last-error attribute and a populated incremental cache
returns with both still in place: the last error is not reset at the start
and the cache is not discarded at the end of the run. -/
theorem C4_counterexample :
    (FitBasic.fit_basic (0 : ℚ) specA idFitter FitBasic.basic_cost id
        simple_vector (fun d _ _ _ => d) id "fit_basic" true 0 1
        (⟨some 7, some 5, some (3 : ℚ)⟩ : CostState ℚ)).map
      (fun r => (r.2.2.lastError, r.2.2.stack)) =
      Except.ok (some (5 : ℚ), some (3 : ℚ)) := rfl

/-- C4 amended: `fit_basic` resets only the call counter (to zero) at the
start — the last-error attribute and the incremental cache reach the fitter
unchanged — and returns whatever state the fitter's run left, discarding
nothing at the end: with a state-preserving fitter the final state is the
incoming one with only the counter set to zero. -/
theorem C4_state_scope {D S : Type} (data : D) (modelspec : ModelSpec)
    (cost_function : FitBasic.CostFunT D S) (segmentor : D → D)
    (mapper : ModelSpec → (ModelSpec → List ℚ) × (List ℚ → ModelSpec))
    (evaluator : D → ModelSpec → Option Int → Bool → D) (metric : D → ℚ)
    (metaname : String) (t0 t1 : Int) (st : CostState S)
    (mods : List Module)
    (hinit : FitBasic.initAllPhi modelspec.modules = Except.ok mods) :
    (FitBasic.fit_basic data modelspec idFitter cost_function segmentor mapper
        evaluator metric metaname true t0 t1 st).map (fun r => r.2.2) =
      Except.ok { counter := some 0, lastError := st.lastError, stack := st.stack } := by
  simp [FitBasic.fit_basic, hinit, idFitter, Except.map]

/-- C4 amended witness: the concrete run of the counterexample, through the
amended theorem. -/
theorem C4_state_scope_witness :
    FitBasic.initAllPhi specA.modules = Except.ok [mA, mB] ∧
    (FitBasic.fit_basic (0 : ℚ) specA idFitter FitBasic.basic_cost id
        simple_vector (fun d _ _ _ => d) id "fit_basic" true 0 1
        (⟨some 7, some 5, some (3 : ℚ)⟩ : CostState ℚ)).map (fun r => r.2.2) =
      Except.ok { counter := some 0, lastError := some 5, stack := some 3 } :=
  ⟨rfl, C4_state_scope (0 : ℚ) specA FitBasic.basic_cost id simple_vector
    (fun d _ _ _ => d) id "fit_basic" 0 1 ⟨some 7, some 5, some 3⟩ [mA, mB] rfl⟩

/-- C5 counterexample: after a concrete `fit_basic` call the caller's
specification (whose value the fit mutated in place) holds a filled-in phi
and the fitting-mode marker set, while the original had neither: the input
is not deep-copied before mutation and the caller's original is not
untouched. -/
theorem C5_counterexample :
    (FitBasic.fit_basic (0 : ℚ) specNoPhi idFitter FitBasic.basic_cost id
        simple_vector (fun d _ _ _ => d) id "fit_basic" true 0 1
        (⟨none, none, none⟩ : CostState ℚ)).map (fun r => r.2.1) =
      Except.ok specNoPhiMutated ∧
    specNoPhi.fitMode = false ∧
    specNoPhi.modules.map Module.phi = [none] :=
  ⟨rfl, rfl, rfl⟩

/-- C5 amended: `fit_basic` does not copy the caller's specification: it is
mutated in place — modules lacking phi get their prior's mean and the
fitting-mode marker is set and left set when fit returns — while the result
handed back is a separate specification built from the improved vector with
the fitting-mode marker off (returned as a fresh deep copy). -/
theorem C5_input_mutation {D S : Type} (data : D) (modelspec : ModelSpec)
    (fitter : List ℚ → (List ℚ → CostState S → ℚ × CostState S) → CostState S →
      List ℚ × CostState S)
    (cost_function : FitBasic.CostFunT D S) (segmentor : D → D)
    (mapper : ModelSpec → (ModelSpec → List ℚ) × (List ℚ → ModelSpec))
    (evaluator : D → ModelSpec → Option Int → Bool → D) (metric : D → ℚ)
    (metaname : String) (t0 t1 : Int) (st : CostState S)
    (mods : List Module)
    (hinit : FitBasic.initAllPhi modelspec.modules = Except.ok mods) :
    ∃ r stF,
      FitBasic.fit_basic data modelspec fitter cost_function segmentor mapper
          evaluator metric metaname true t0 t1 st =
        Except.ok ([r], FitBasic.fit_mode_on { modelspec with modules := mods }, stF) ∧
      r.fitMode = false := by
  simp only [FitBasic.fit_basic, hinit]
  exact ⟨_, _, rfl, rfl⟩

/-- C5 amended witness: the concrete run of the counterexample, through the
amended theorem. -/
theorem C5_input_mutation_witness :
    FitBasic.initAllPhi specNoPhi.modules = Except.ok [mNoPhiInit] ∧
    ∃ r stF,
      FitBasic.fit_basic (0 : ℚ) specNoPhi idFitter FitBasic.basic_cost id
          simple_vector (fun d _ _ _ => d) id "fit_basic" true 0 1
          (⟨none, none, none⟩ : CostState ℚ) =
        Except.ok ([r], FitBasic.fit_mode_on { specNoPhi with modules := [mNoPhiInit] }, stF) ∧
      r.fitMode = false :=
  ⟨rfl, C5_input_mutation (0 : ℚ) specNoPhi idFitter FitBasic.basic_cost id
    simple_vector (fun d _ _ _ => d) id "fit_basic" 0 1 ⟨none, none, none⟩ _ rfl⟩

/-- C6: a successful `fit_basic` call returns a single-element list whose
specification carries the fitter name, the elapsed wall-clock time (the
difference of the two clock readings, non-negative when the clock is
monotone) and a parameter count equal to the length of the improved vector
the fitter returned. -/
theorem C6_result_metadata {D S : Type} (data : D) (modelspec : ModelSpec)
    (fitter : List ℚ → (List ℚ → CostState S → ℚ × CostState S) → CostState S →
      List ℚ × CostState S)
    (cost_function : FitBasic.CostFunT D S) (segmentor : D → D)
    (mapper : ModelSpec → (ModelSpec → List ℚ) × (List ℚ → ModelSpec))
    (evaluator : D → ModelSpec → Option Int → Bool → D) (metric : D → ℚ)
    (metaname : String) (t0 t1 : Int) (st : CostState S)
    (mods : List Module)
    (hinit : FitBasic.initAllPhi modelspec.modules = Except.ok mods)
    (ht : t0 ≤ t1) :
    let mspec := FitBasic.fit_mode_on { modelspec with modules := mods }
    let improved := (fitter ((mapper mspec).1 mspec)
      (FitBasic.cost_closure cost_function (mapper mspec).2 mspec data segmentor
        evaluator metric) { st with counter := some 0 }).1
    ∃ r fspec stF,
      FitBasic.fit_basic data modelspec fitter cost_function segmentor mapper
          evaluator metric metaname true t0 t1 st =
        Except.ok ([r], fspec, stF) ∧
      r.metaFitter = some metaname ∧
      r.metaFitTime = some (t1 - t0) ∧
      0 ≤ t1 - t0 ∧
      r.metaNParms = some improved.length := by
  intro mspec improved
  simp only [FitBasic.fit_basic, hinit]
  exact ⟨_, _, _, rfl, rfl, rfl, by omega, rfl⟩

/-- C6 witness: concrete successful fit carrying the expected metadata. -/
theorem C6_result_metadata_witness :
    FitBasic.initAllPhi specA.modules = Except.ok [mA, mB] ∧ (0 : Int) ≤ 1 ∧
    ∃ r fspec stF,
      FitBasic.fit_basic (0 : ℚ) specA idFitter FitBasic.basic_cost id
          simple_vector (fun d _ _ _ => d) id "fit_basic" true 0 1
          (⟨none, none, none⟩ : CostState ℚ) =
        Except.ok ([r], fspec, stF) ∧
      r.metaFitter = some "fit_basic" ∧
      r.metaFitTime = some 1 ∧
      (0 : Int) ≤ 1 ∧ ∃ n, r.metaNParms = some n := by
  refine ⟨rfl, by omega, ?_⟩
  obtain ⟨r, fspec, stF, h1, h2, h3, h4, h5⟩ :=
    C6_result_metadata (0 : ℚ) specA idFitter FitBasic.basic_cost id
      simple_vector (fun d _ _ _ => d) id "fit_basic" 0 1 ⟨none, none, none⟩
      [mA, mB] rfl (by omega)
  exact ⟨r, fspec, stF, h1, h2, by simpa using h3, by omega, ⟨_, h5⟩⟩

/-- C8: the require-phi pass keeps every module that already has phi and
defaults the others from their prior's mean, and when some module has
neither phi nor a defined prior the fit fails with an error that does not
depend on the fitter: the external optimizer is never consulted. -/
theorem C8_phi_defaulting {D S : Type} (data : D) (modelspec : ModelSpec)
    (cost_function : FitBasic.CostFunT D S) (segmentor : D → D)
    (mapper : ModelSpec → (ModelSpec → List ℚ) × (List ℚ → ModelSpec))
    (evaluator : D → ModelSpec → Option Int → Bool → D) (metric : D → ℚ)
    (metaname : String) (t0 t1 : Int) (st : CostState S)
    (m : Module) (hm : m ∈ modelspec.modules)
    (hphi : m.phi = none) (hprior : m.prior = none) :
    (∀ ms mods, FitBasic.initAllPhi ms = Except.ok mods →
        mods = ms.map defaultPhi) ∧
    ∃ e, ∀ fitter, FitBasic.fit_basic data modelspec fitter cost_function
        segmentor mapper evaluator metric metaname true t0 t1 st =
      Except.error e := by
  refine ⟨fun ms mods h => initAllPhi_ok_shape ms mods h, ?_⟩
  obtain ⟨e, he⟩ := initAllPhi_error_of_bare modelspec.modules m hm hphi hprior
  exact ⟨e, fun fitter => by simp [FitBasic.fit_basic, he]⟩

/-- C8 witness: concrete specification containing a module with neither phi
nor prior; the fit fails with the same error for every fitter. -/
theorem C8_phi_defaulting_witness :
    (mBare ∈ specBare.modules ∧ mBare.phi = none ∧ mBare.prior = none) ∧
    ((∀ ms mods, FitBasic.initAllPhi ms = Except.ok mods →
        mods = ms.map defaultPhi) ∧
      ∃ e, ∀ fitter, FitBasic.fit_basic (0 : ℚ) specBare fitter
          FitBasic.basic_cost id simple_vector (fun d _ _ _ => d) id
          "fit_basic" true 0 1 (⟨none, none, none⟩ : CostState ℚ) =
        Except.error e) :=
  ⟨⟨by simp [specBare], rfl, rfl⟩,
    C8_phi_defaulting (0 : ℚ) specBare FitBasic.basic_cost id simple_vector
      (fun d _ _ _ => d) id "fit_basic" 0 1 ⟨none, none, none⟩ mBare
      (by simp [specBare]) rfl rfl⟩

end NEMS
